import Mathlib

/-!
Verification of the http-encoding content-codec engine (src/src/index.ts).

Byte buffers (`Uint8Array` / node `Buffer`) are modelled as `List Nat`; every
JavaScript 32-bit bitwise operation that can overflow is truncated explicitly
with `% 2 ^ 32`.  Fallible code is modelled with `Except`.  The external
compression engines (zlib gzip/deflate, brotli, zstd) are opaque collaborators
of the library and are therefore abstracted as fields of an `Engines` record;
everything the repository implements itself (base64 codec, dispatch, parsing,
stream plumbing) is translated directly from the source.
-/

namespace HttpEncoding

/-- JS `String.prototype.toLowerCase`, modelled on the ASCII range (encoding
tokens are ASCII; `Char.toLower` maps `A`-`Z` to `a`-`z` and leaves everything
else alone, exactly like JS does on ASCII).  Defined over `String.data` so it
computes inside the kernel. -/
def jsToLower (s : String) : String :=
  ⟨s.data.map Char.toLower⟩

/-- Left-to-right, non-overlapping scan for the two-character separator
`", "`, accumulating the current piece in reverse - the recursion behind
`split(', ')`. -/
def jsSplitGo : List Char → List Char → List (List Char)
  | [], acc => [acc.reverse]
  | ',' :: ' ' :: rest, acc => acc.reverse :: jsSplitGo rest []
  | c :: rest, acc => jsSplitGo rest (c :: acc)

/-- JS `String.prototype.split(', ')`: split on each non-overlapping
occurrence of comma-space, scanning left to right. -/
def jsSplitOnCommaSpace (s : String) : List String :=
  (jsSplitGo s.data []).map (fun l => ⟨l⟩)

/-- The alphabet string of `src/src/index.ts` line 110:
`const BASE64_CHARS = 'ABC...xyz0123456789+/'`. -/
def BASE64_CHARS : String :=
  "ABCDEFGHIJKLMNOPQRSTUVWXYZabcdefghijklmnopqrstuvwxyz0123456789+/"

/-- `BASE64_CHAR_CODES[i] = BASE64_CHARS.charCodeAt(i)` (lines 111-114).
The default is irrelevant: the code only indexes with 6-bit values. -/
def BASE64_CHAR_CODES (i : Nat) : Nat :=
  (BASE64_CHARS.toList.getD i 'A').toNat

/-- The decode lookup table of lines 116-130: 255 = invalid, 254 = whitespace,
`-`/`_` are the URL-safe variants, `=` is "treated as 0 for decoding purposes".
The `Uint8Array` assignments are disjoint, so the table is written as one
if-chain over the ASCII ranges of `BASE64_CHARS`. -/
def BASE64_DECODE_LOOKUP (c : Nat) : Nat :=
  if 65 ≤ c ∧ c ≤ 90 then c - 65          -- A-Z ↦ 0..25
  else if 97 ≤ c ∧ c ≤ 122 then c - 97 + 26  -- a-z ↦ 26..51
  else if 48 ≤ c ∧ c ≤ 57 then c - 48 + 52   -- 0-9 ↦ 52..61
  else if c = 43 then 62                   -- +
  else if c = 47 then 63                   -- /
  else if c = 45 then 62                   -- - (URL-safe for +)
  else if c = 95 then 63                   -- _ (URL-safe for /)
  else if c = 32 ∨ c = 9 ∨ c = 10 ∨ c = 13 then 254  -- space tab LF CR
  else if c = 61 then 0                    -- = padding, "treat as 0"
  else 255

/-- `encodeBase64Lookup` (lines 132-163).  The main loop runs while
`i + 2 < len`, i.e. while at least three input bytes remain, so the function
consumes the input in 3-byte groups and pads a trailing group of 1 or 2 bytes
with `=` (char code 61). -/
def encodeBase64Lookup : List Nat → List Nat
  | [] => []
  | [a] =>
    [BASE64_CHAR_CODES (a >>> 2),
     BASE64_CHAR_CODES ((a &&& 3) <<< 4),
     61, 61]
  | [a, b] =>
    [BASE64_CHAR_CODES (a >>> 2),
     BASE64_CHAR_CODES (((a &&& 3) <<< 4) ||| (b >>> 4)),
     BASE64_CHAR_CODES ((b &&& 15) <<< 2),
     61]
  | a :: b :: c :: rest =>
    BASE64_CHAR_CODES (a >>> 2) ::
    BASE64_CHAR_CODES (((a &&& 3) <<< 4) ||| (b >>> 4)) ::
    BASE64_CHAR_CODES (((b &&& 15) <<< 2) ||| (c >>> 6)) ::
    BASE64_CHAR_CODES (c &&& 63) ::
    encodeBase64Lookup rest

/-- First pass of `decodeBase64Lookup` (lines 166-176): count the characters
whose lookup value is `< 64` and abort at the first byte whose lookup value is
255, reporting its position and the byte itself.  `i` is the position of the
head of the remaining list. -/
def b64Scan : List Nat → Nat → Except (Nat × Nat) Nat
  | [], _ => .ok 0
  | c :: rest, i =>
    let v := BASE64_DECODE_LOOKUP c
    if v < 64 then (b64Scan rest (i + 1)).map (· + 1)
    else if v = 255 then .error (i, c)
    else b64Scan rest (i + 1)          -- v = 254: whitespace, skip

/-- Second pass of `decodeBase64Lookup` (lines 183-198).  `remaining` is
`resultLen - j`; the JS loop runs while `i < len && j < resultLen`.  Characters
with lookup value ≥ 64 are skipped.  `buffer = (buffer << 6) | v` is a JS
32-bit operation, hence the `% 2 ^ 32`; the emitted byte is
`(buffer >> bufferLen) & 0xff` (sign extension cannot reach bits below 20,
so the unsigned reading is exact). -/
def b64SecondPass : List Nat → Nat → Nat → Nat → List Nat
  | _, _, _, 0 => []
  | [], _, _, _ + 1 => []
  | c :: rest, buffer, bufferLen, r + 1 =>
    let v := BASE64_DECODE_LOOKUP c
    if 64 ≤ v then b64SecondPass rest buffer bufferLen (r + 1)
    else
      let buffer2 := ((buffer <<< 6) ||| v) % 2 ^ 32
      let bufferLen2 := bufferLen + 6
      if 8 ≤ bufferLen2 then
        ((buffer2 >>> (bufferLen2 - 8)) &&& 255) ::
          b64SecondPass rest buffer2 (bufferLen2 - 8) r
      else
        b64SecondPass rest buffer2 bufferLen2 (r + 1)

/-- `decodeBase64Lookup` (lines 165-201): scan (count + validity check),
compute `resultLen = ⌊validCount/4⌋*3 + (validCount%4 = 3 ? 2 : validCount%4 = 2 ? 1 : 0)`,
then run the bit-buffer pass. -/
def decodeBase64Lookup (input : List Nat) : Except (Nat × Nat) (List Nat) :=
  match b64Scan input 0 with
  | .error e => .error e
  | .ok validCount =>
    let resultLen := validCount / 4 * 3 +
      (if validCount % 4 = 3 then 2 else if validCount % 4 = 2 then 1 else 0)
    .ok (b64SecondPass input 0 0 resultLen)

/-- `encodeBase64Sync` (lines 205-211).  In Node the `Buffer` branch produces
the canonical RFC 4648 padded encoding, which is byte-for-byte what
`encodeBase64Lookup` produces; the function is modelled by the repository's
own lookup implementation. -/
def encodeBase64Sync (bytes : List Nat) : List Nat :=
  encodeBase64Lookup bytes

/-- `decodeBase64Sync` (lines 213-219), modelled by the repository's own
lookup implementation (the `Buffer` branch delegates to the platform). -/
def decodeBase64Sync (base64Bytes : List Nat) : Except (Nat × Nat) (List Nat) :=
  decodeBase64Lookup base64Bytes

/-- The error taxonomy of the spec: `Unsupported encoding: <token>` thrown by
the dispatchers, and `Invalid base64 character at position <pos>: <byte>`
thrown by the base64 decoder. -/
inductive CodecError where
  | unsupportedEncoding (token : String)
  | invalidInput (pos : Nat) (byte : Nat)
deriving DecidableEq

/-- The external compression engines (zlib, brotli, zstd - in both their
promise-based and `*Sync` forms, plus the compress direction with its `level`
argument).  They are outside this repository; the dispatch code treats them as
opaque `bytes -> bytes` functions, which is how they are modelled. -/
structure Engines where
  gunzip : List Nat → List Nat
  inflate : List Nat → List Nat
  inflateRaw : List Nat → List Nat
  brotliDecompress : List Nat → List Nat
  zstdDecompress : List Nat → List Nat
  gunzipSync : List Nat → List Nat
  inflateSync : List Nat → List Nat
  inflateRawSync : List Nat → List Nat
  gzip : List Nat → Nat → List Nat
  deflate : List Nat → Nat → List Nat
  brotliCompress : List Nat → Nat → List Nat
  zstdCompress : List Nat → Nat → List Nat

/-- The `encoding` argument of the buffered/streaming entry points:
`undefined`, a single (possibly `", "`-joined) string, or an array. -/
inductive EncodingSpec where
  | undef
  | str (s : String)
  | list (l : List String)

/-- `IDENTITY_ENCODINGS` (lines 867-882). -/
def IDENTITY_ENCODINGS : List String :=
  ["identity", "amz-1.0", "none", "text", "binary", "utf8", "utf-8"]

/-- The single-token branch of `decodeBuffer` (lines 900-927).  A falsy token
(`undefined` or the empty string) becomes `identity`; otherwise the token is
lower-cased before dispatch.  For deflate, `bodyBuffer[0] & 0xF` on an empty
buffer is `undefined & 0xF = 0` in JS, hence `headD 0`. -/
def decodeBufferSingle (E : Engines) (body : List Nat) (tok : String) :
    Except CodecError (List Nat) :=
  let enc := if tok = "" then "identity" else jsToLower tok
  if enc = "gzip" ∨ enc = "x-gzip" then .ok (E.gunzip body)
  else if enc = "deflate" ∨ enc = "x-deflate" then
    let lowNibble := (body.headD 0) &&& 0xF
    if lowNibble = 8 then .ok (E.inflate body) else .ok (E.inflateRaw body)
  else if enc = "br" then .ok (E.brotliDecompress body)
  else if enc = "zstd" then .ok (E.zstdDecompress body)
  else if enc = "base64" then
    match decodeBase64Sync body with
    | .ok r => .ok r
    | .error (pos, byte) => .error (.invalidInput pos byte)
  else if IDENTITY_ENCODINGS.contains enc then .ok body
  else .error (.unsupportedEncoding enc)

/-- `decodeBuffer` on a string spec (lines 893-899 + single path). A string
containing `", "` (equivalently: one whose `splitOn ", "` has at least two
parts) is split, the parts are reversed, and the reversed parts are folded
with the recursive `decodeBuffer`; since a part produced by `split(', ')`
never contains `", "` itself, that recursive call is exactly the single-token
branch. -/
def decodeBufferStr (E : Engines) (body : List Nat) (s : String) :
    Except CodecError (List Nat) :=
  match jsSplitOnCommaSpace s with
  | [] => decodeBufferSingle E body s
  | [_] => decodeBufferSingle E body s
  | parts =>
    (parts.reverse).foldlM (fun content tok => decodeBufferSingle E content tok) body

/-- `decodeBuffer` (lines 890-928).  An array spec is folded in the order
given - the source only reverses string specs - with each element going
through the full string path again (elements may themselves contain `", "`). -/
def decodeBuffer (E : Engines) (body : List Nat) :
    EncodingSpec → Except CodecError (List Nat)
  | .undef => decodeBufferSingle E body ""
  | .str s => decodeBufferStr E body s
  | .list l => l.foldlM (fun content tok => decodeBufferStr E content tok) body

/-- Single-token branch of `decodeBufferSync` (lines 951-972): gzip, deflate
(with the same first-byte sniff), base64 and the identity aliases; brotli and
zstd have no branch and fall through to `Unsupported encoding`. -/
def decodeBufferSyncSingle (E : Engines) (body : List Nat) (tok : String) :
    Except CodecError (List Nat) :=
  let enc := if tok = "" then "identity" else jsToLower tok
  if enc = "gzip" ∨ enc = "x-gzip" then .ok (E.gunzipSync body)
  else if enc = "deflate" ∨ enc = "x-deflate" then
    let lowNibble := (body.headD 0) &&& 0xF
    if lowNibble = 8 then .ok (E.inflateSync body) else .ok (E.inflateRawSync body)
  else if enc = "base64" then
    match decodeBase64Sync body with
    | .ok r => .ok r
    | .error (pos, byte) => .error (.invalidInput pos byte)
  else if IDENTITY_ENCODINGS.contains enc then .ok body
  else .error (.unsupportedEncoding enc)

/-- `decodeBufferSync` on a string spec (lines 944-948 + single path),
structured like `decodeBufferStr`. -/
def decodeBufferSyncStr (E : Engines) (body : List Nat) (s : String) :
    Except CodecError (List Nat) :=
  match jsSplitOnCommaSpace s with
  | [] => decodeBufferSyncSingle E body s
  | [_] => decodeBufferSyncSingle E body s
  | parts =>
    (parts.reverse).foldlM (fun content tok => decodeBufferSyncSingle E content tok) body

/-- `decodeBufferSync` (lines 941-973): like `decodeBuffer`, array specs are
folded as given, only string specs are reversed. -/
def decodeBufferSync (E : Engines) (body : List Nat) :
    EncodingSpec → Except CodecError (List Nat)
  | .undef => decodeBufferSyncSingle E body ""
  | .str s => decodeBufferSyncStr E body s
  | .list l => l.foldlM (fun content tok => decodeBufferSyncStr E content tok) body

/-- `encodeBuffer` (lines 981-1005): one token only, `options.level ?? 4`,
falsy token becomes `identity`, lower-cased dispatch, unknown tokens throw. -/
def encodeBuffer (E : Engines) (body : List Nat) (tok : String)
    (level : Option Nat) : Except CodecError (List Nat) :=
  let lvl := level.getD 4
  let enc := if tok = "" then "identity" else jsToLower tok
  if enc = "gzip" ∨ enc = "x-gzip" then .ok (E.gzip body lvl)
  else if enc = "deflate" ∨ enc = "x-deflate" then .ok (E.deflate body lvl)
  else if enc = "br" then .ok (E.brotliCompress body lvl)
  else if enc = "zstd" then .ok (E.zstdCompress body lvl)
  else if enc = "base64" then .ok (encodeBase64Sync body)
  else if IDENTITY_ENCODINGS.contains enc then .ok body
  else .error (.unsupportedEncoding enc)

/-- The token list `parseEncodings` builds before filtering (lines 793-801):
falsy input gives `[]`, an array is used as is, a string is split on `", "`
when it contains that separator (equivalently, when `splitOn ", "` yields at
least two parts) and otherwise kept whole. -/
def rawEncodings : EncodingSpec → List String
  | .undef => []
  | .str s =>
    if s = "" then []
    else if 2 ≤ (jsSplitOnCommaSpace s).length then jsSplitOnCommaSpace s else [s]
  | .list l => l

/-- `parseEncodings` (lines 793-803): the raw tokens with every entry whose
lower-casing is an identity alias removed.  Note the kept tokens are returned
in their original case. -/
def parseEncodings (spec : EncodingSpec) : List String :=
  (rawEncodings spec).filter (fun e => !(IDENTITY_ENCODINGS.contains (jsToLower e)))

/-- The per-token decoder transforms `getDecoderStream` can return
(lines 753-770); the actual stream objects only matter by identity here. -/
inductive DecoderStage where
  | gunzipStream
  | inflateStream
  | brotliDecompressStream
  | zstdDecompressStream
  | base64DecodeStream
deriving DecidableEq

/-- The per-token encoder transforms of `getEncoderStream` (lines 773-790). -/
inductive EncoderStage where
  | gzipStream
  | deflateStream
  | brotliCompressStream
  | zstdCompressStream
  | base64EncodeStream
deriving DecidableEq

/-- `getDecoderStream` (lines 753-770): switch on the lower-cased token; the
thrown `Unsupported encoding` message carries the token as given. -/
def getDecoderStream (encoding : String) : Except CodecError DecoderStage :=
  let e := jsToLower encoding
  if e = "gzip" ∨ e = "x-gzip" then .ok .gunzipStream
  else if e = "deflate" ∨ e = "x-deflate" then .ok .inflateStream
  else if e = "br" then .ok .brotliDecompressStream
  else if e = "zstd" then .ok .zstdDecompressStream
  else if e = "base64" then .ok .base64DecodeStream
  else .error (.unsupportedEncoding encoding)

/-- `getEncoderStream` (lines 773-790). -/
def getEncoderStream (encoding : String) : Except CodecError EncoderStage :=
  let e := jsToLower encoding
  if e = "gzip" ∨ e = "x-gzip" then .ok .gzipStream
  else if e = "deflate" ∨ e = "x-deflate" then .ok .deflateStream
  else if e = "br" then .ok .brotliCompressStream
  else if e = "zstd" then .ok .zstdCompressStream
  else if e = "base64" then .ok .base64EncodeStream
  else .error (.unsupportedEncoding encoding)

/-- `encodings.map(e => getXcoderStream(e))`: JS `map` evaluates left to
right and the first throw aborts, so the eager mapping is an exception fold. -/
def buildChain {σ : Type} (f : String → Except CodecError σ) :
    List String → Except CodecError (List σ)
  | [] => .ok []
  | e :: rest =>
    match f e with
    | .error err => .error err
    | .ok s =>
      match buildChain f rest with
      | .error err => .error err
      | .ok ss => .ok (s :: ss)

/-- `createDecodeStream` (lines 818-829): parse, `null` when no stage is
needed, otherwise reverse the token list and build the decoder pipeline (a
single stage and a `chainStreams` composite are both modelled as the ordered
stage list). -/
def createDecodeStream (spec : EncodingSpec) :
    Except CodecError (Option (List DecoderStage)) :=
  let encodings := parseEncodings spec
  if encodings.isEmpty then .ok none
  else
    match buildChain getDecoderStream encodings.reverse with
    | .error e => .error e
    | .ok stages => .ok (some stages)

/-- `createEncodeStream` (lines 844-852): same without the reversal. -/
def createEncodeStream (spec : EncodingSpec) :
    Except CodecError (Option (List EncoderStage)) :=
  let encodings := parseEncodings spec
  if encodings.isEmpty then .ok none
  else
    match buildChain getEncoderStream encodings with
    | .error e => .error e
    | .ok stages => .ok (some stages)

/-- `BASE64_BATCH_SIZE` (line 587): the internal batch size the source fixes.
The streaming definitions below take the batch size as a parameter `B` so the
"regardless of internal batch size" part of the spec can be stated; the source
instantiates `B` with this constant (a positive multiple of both 3 and 4). -/
def BASE64_BATCH_SIZE : Nat := 1536 * 1024

/-- The `while` loop of `createBase64EncodeStream.transform` (lines 607-627).
`offset` advances by at least 3 on every iteration that continues, so a fuel
of `combined.length` (consumed one unit per iteration) never runs out before
the loop exits by itself; the fuel-0 arm is dead for the initial fuel used by
`b64EncodeLoop`.  Returns the concatenation of the enqueued chunks and the
final `offset`.  (The `isFirstBatch`/`setTimeout` yield between batches does
not affect the emitted bytes and is not modelled.) -/
def b64EncodeLoopGo (B : Nat) (combined : List Nat) :
    Nat → Nat → List Nat × Nat
  | 0, offset => ([], offset)
  | fuel + 1, offset =>
    if offset + 3 ≤ combined.length then
      let batchEnd := min (offset + B) combined.length
      let alignedEnd := offset + (batchEnd - offset) / 3 * 3
      if offset < alignedEnd then
        let batch := (combined.drop offset).take (alignedEnd - offset)
        let rest := b64EncodeLoopGo B combined fuel alignedEnd
        (encodeBase64Sync batch ++ rest.1, rest.2)
      else ([], offset)                 -- break
    else ([], offset)

/-- The encode batch loop started at offset 0. -/
def b64EncodeLoop (B : Nat) (combined : List Nat) : List Nat × Nat :=
  b64EncodeLoopGo B combined combined.length 0

/-- One `transform(chunk)` call of `createBase64EncodeStream` (lines 594-631):
prepend the leftover, run the batch loop, keep the unconsumed suffix as the
new leftover.  Returns (emitted bytes, new leftover). -/
def b64EncodeTransform (B : Nat) (leftover input : List Nat) :
    List Nat × List Nat :=
  let combined := leftover ++ input
  let r := b64EncodeLoop B combined
  (r.1, combined.drop r.2)

/-- `createBase64EncodeStream.flush` (lines 632-638): encode (with padding)
whatever leftover remains. -/
def b64EncodeFlush (leftover : List Nat) : List Nat :=
  if 0 < leftover.length then encodeBase64Sync leftover else []

/-- Feeding a list of chunks to a fresh base64 encode transform and then
flushing; the concatenation of everything the stream emits. -/
def b64EncodeStreamLoop (B : Nat) : List (List Nat) → List Nat → List Nat
  | [], leftover => b64EncodeFlush leftover
  | chunk :: rest, leftover =>
    let r := b64EncodeTransform B leftover chunk
    r.1 ++ b64EncodeStreamLoop B rest r.2

/-- A full run of `createBase64EncodeStream` over the given chunks. -/
def b64EncodeStreamRun (B : Nat) (chunks : List (List Nat)) : List Nat :=
  b64EncodeStreamLoop B chunks []

/-- The `processEnd` search of `createBase64DecodeStream.transform`
(lines 678-686): the position just after the `target`-th character that is
valid (`lookup < 64`) or padding (`= 61`).  The source is only ever called
with `target ≤` the number of such characters, where this recursion agrees
with the JS loop. -/
def b64FindGroupEnd : List Nat → Nat → Nat
  | _, 0 => 0
  | [], _ + 1 => 0
  | c :: rest, t + 1 =>
    if BASE64_DECODE_LOOKUP c < 64 ∨ c = 61 then 1 + b64FindGroupEnd rest t
    else 1 + b64FindGroupEnd rest (t + 1)

/-- The decode batch loop (lines 689-704): slices `[offset, processEnd)` into
pieces of at most `B` bytes and decodes each piece with `decodeBase64Sync`.
`offset` advances by at least one per iteration when `0 < B`, so a fuel of
`processEnd` suffices; the JS loop would not terminate at all for `B = 0`
(the source constant is positive), hence the `0 < B` guard. -/
def b64DecodeBatchesGo (B processEnd : Nat) (combined : List Nat) :
    Nat → Nat → Except (Nat × Nat) (List Nat)
  | 0, _ => .ok []
  | fuel + 1, offset =>
    if offset < processEnd ∧ 0 < B then
      let batchEnd := min (offset + B) processEnd
      let batch := (combined.drop offset).take (batchEnd - offset)
      match decodeBase64Sync batch with
      | .error e => .error e
      | .ok decoded =>
        match b64DecodeBatchesGo B processEnd combined fuel batchEnd with
        | .error e => .error e
        | .ok rest => .ok (decoded ++ rest)
    else .ok []

/-- The decode batch loop started at offset 0. -/
def b64DecodeBatches (B : Nat) (combined : List Nat) (processEnd : Nat) :
    Except (Nat × Nat) (List Nat) :=
  b64DecodeBatchesGo B processEnd combined processEnd 0

/-- One `transform(chunk)` call of `createBase64DecodeStream` (lines 647-711):
prepend the leftover, validate and count (`v < 64 || c = 61` counts exactly
the characters `b64Scan` counts, since `lookup '=' = 0`; the first byte with
lookup 255 aborts), then decode the region holding the complete groups of 4
in batches and retain the rest.  Nothing is emitted when the scan throws. -/
def b64DecodeTransform (B : Nat) (leftover input : List Nat) :
    Except (Nat × Nat) (List Nat × List Nat) :=
  let combined := leftover ++ input
  match b64Scan combined 0 with
  | .error e => .error e
  | .ok validCount =>
    let completeGroups := validCount / 4
    if 0 < completeGroups then
      let processEnd := b64FindGroupEnd combined (completeGroups * 4)
      match b64DecodeBatches B combined processEnd with
      | .error e => .error e
      | .ok out => .ok (out, combined.drop processEnd)
    else .ok ([], combined)

/-- `createBase64DecodeStream.flush` (lines 713-729): decode the retained
characters if any of them is valid (`lookup < 64`); otherwise emit nothing. -/
def b64DecodeFlush (leftover : List Nat) : Except (Nat × Nat) (List Nat) :=
  if 0 < leftover.length then
    let validCount := (leftover.filter (fun c => BASE64_DECODE_LOOKUP c < 64)).length
    if 0 < validCount then decodeBase64Sync leftover else .ok []
  else .ok []

/-- Feeding a list of chunks to a fresh base64 decode transform, flushing at
the end; the concatenation of everything the stream emits, or the first
error. -/
def b64DecodeStreamLoop (B : Nat) :
    List (List Nat) → List Nat → Except (Nat × Nat) (List Nat)
  | [], leftover => b64DecodeFlush leftover
  | chunk :: rest, leftover =>
    match b64DecodeTransform B leftover chunk with
    | .error e => .error e
    | .ok (out, l) =>
      match b64DecodeStreamLoop B rest l with
      | .error e => .error e
      | .ok more => .ok (out ++ more)

/-- A full run of `createBase64DecodeStream` over the given chunks. -/
def b64DecodeStreamRun (B : Nat) (chunks : List (List Nat)) :
    Except (Nat × Nat) (List Nat) :=
  b64DecodeStreamLoop B chunks []

/-- The decode result of an input consisting only of characters with a 6-bit
lookup value: groups of four 6-bit values give three bytes, a trailing group
of 3/2/1 values gives 2/1/0 bytes.  This is `decodeBase64Lookup` specialised
to scan-clean input; used to relate the streaming and buffered decoders. -/
def b64DecodeAllValid (u : List Nat) : List Nat :=
  b64SecondPass u 0 0
    (u.length / 4 * 3 +
      (if u.length % 4 = 3 then 2 else if u.length % 4 = 2 then 1 else 0))

/-- Modelled from the spec: the decode composition formula of §4.3,
`result = decode(decode(decode(body, token_n), token_n-1), ..., token_1)`,
written over an arbitrary single-spec decoder `step`.  Compared against the
fold the source actually performs. -/
def decodeChain (step : List Nat → String → Except CodecError (List Nat))
    (body : List Nat) : List String → Except CodecError (List Nat)
  | [] => .ok body
  | tok :: rest =>
    (decodeChain step body rest).bind fun content => step content tok

/-- A concrete engine assignment (identities) used to instantiate theorems
with hypotheses at concrete inputs. -/
def trivialEngines : Engines where
  gunzip := id
  inflate := id
  inflateRaw := id
  brotliDecompress := id
  zstdDecompress := id
  gunzipSync := id
  inflateSync := id
  inflateRawSync := id
  gzip := fun b _ => b
  deflate := fun b _ => b
  brotliCompress := fun b _ => b
  zstdCompress := fun b _ => b

/-- An engine assignment whose gunzip and brotli stages are distinguishable,
so the application order of a multi-token decode becomes observable. -/
def cexEngines : Engines :=
  { trivialEngines with
      gunzip := fun b => 0 :: b
      brotliDecompress := fun b => 1 :: b }

/-- The recognized non-identity codec tokens of spec §6. -/
def RECOGNIZED_TOKENS : List String :=
  ["gzip", "x-gzip", "deflate", "x-deflate", "br", "zstd", "base64"]

/-! ## Theorems -/

/-- C1.  The base64 round-trip fails on the lookup-table implementation for a
buffer whose length is not a multiple of 3: the decoder maps `=` to the 6-bit
value 0 and counts it towards `validCount`, so the padded encoding of `[72]`
(`"SA=="`) decodes to `[72, 0, 0]` instead of `[72]` - contradicting the
code's own comments ("minus padding", "skip whitespace and padding") and the
spec's round-trip property. -/
theorem c1_base64_roundtrip_bug :
    decodeBase64Lookup (encodeBase64Lookup [72]) = .ok [72, 0, 0] ∧
    ([72, 0, 0] : List Nat) ≠ [72] :=
  ⟨rfl, by decide⟩

/-- C5.  For every non-empty buffer, decoding with token `deflate` or
`x-deflate` (async and sync alike) inspects exactly the first byte: low
nibble 8 selects zlib-wrapped inflate, anything else selects raw inflate,
applied to the whole buffer. -/
theorem c5_deflate_sniff (E : Engines) (b : Nat) (rest : List Nat) :
    (decodeBuffer E (b :: rest) (.str "deflate") =
      .ok (if b &&& 0xF = 8 then E.inflate (b :: rest) else E.inflateRaw (b :: rest))) ∧
    (decodeBuffer E (b :: rest) (.str "x-deflate") =
      .ok (if b &&& 0xF = 8 then E.inflate (b :: rest) else E.inflateRaw (b :: rest))) ∧
    (decodeBufferSync E (b :: rest) (.str "deflate") =
      .ok (if b &&& 0xF = 8 then E.inflateSync (b :: rest) else E.inflateRawSync (b :: rest))) ∧
    (decodeBufferSync E (b :: rest) (.str "x-deflate") =
      .ok (if b &&& 0xF = 8 then E.inflateSync (b :: rest) else E.inflateRawSync (b :: rest))) := by
  refine ⟨?_, ?_, ?_, ?_⟩
  · show (if b &&& 0xF = 8 then (.ok (E.inflate (b :: rest)) : Except CodecError (List Nat))
        else .ok (E.inflateRaw (b :: rest))) = _
    exact (apply_ite Except.ok _ _ _).symm
  · show (if b &&& 0xF = 8 then (.ok (E.inflate (b :: rest)) : Except CodecError (List Nat))
        else .ok (E.inflateRaw (b :: rest))) = _
    exact (apply_ite Except.ok _ _ _).symm
  · show (if b &&& 0xF = 8 then (.ok (E.inflateSync (b :: rest)) : Except CodecError (List Nat))
        else .ok (E.inflateRawSync (b :: rest))) = _
    exact (apply_ite Except.ok _ _ _).symm
  · show (if b &&& 0xF = 8 then (.ok (E.inflateSync (b :: rest)) : Except CodecError (List Nat))
        else .ok (E.inflateRawSync (b :: rest))) = _
    exact (apply_ite Except.ok _ _ _).symm

/-- C7.  `undefined` and every no-op alias pass the buffer through unchanged,
for `decodeBuffer`, `decodeBufferSync` and `encodeBuffer`. -/
theorem c7_identity_passthrough (E : Engines) (body : List Nat) (lvl : Option Nat) :
    decodeBuffer E body .undef = .ok body ∧
    decodeBufferSync E body .undef = .ok body ∧
    ∀ t ∈ IDENTITY_ENCODINGS,
      decodeBuffer E body (.str t) = .ok body ∧
      decodeBufferSync E body (.str t) = .ok body ∧
      encodeBuffer E body t lvl = .ok body := by
  refine ⟨rfl, rfl, ?_⟩
  intro t ht
  simp only [IDENTITY_ENCODINGS, List.mem_cons, List.not_mem_nil, or_false] at ht
  rcases ht with rfl | rfl | rfl | rfl | rfl | rfl | rfl <;> exact ⟨rfl, rfl, rfl⟩

/-- Witness for C7 at the alias `identity` and a concrete buffer. -/
theorem c7_identity_passthrough_witness :
    decodeBuffer trivialEngines [1, 2] (.str "identity") = .ok [1, 2] ∧
    decodeBufferSync trivialEngines [1, 2] (.str "identity") = .ok [1, 2] ∧
    encodeBuffer trivialEngines [1, 2] "identity" none = .ok [1, 2] :=
  (c7_identity_passthrough trivialEngines [1, 2] none).2.2 "identity" (by decide)

/-- C10.  A comma without a following space is not a separator: `"gzip,br"`
stays one token in the parser and fails with `Unsupported encoding` in all
five entry points. -/
theorem c10_comma_needs_space (E : Engines) (body : List Nat) (lvl : Option Nat) :
    parseEncodings (.str "gzip,br") = ["gzip,br"] ∧
    decodeBuffer E body (.str "gzip,br") = .error (.unsupportedEncoding "gzip,br") ∧
    decodeBufferSync E body (.str "gzip,br") = .error (.unsupportedEncoding "gzip,br") ∧
    encodeBuffer E body "gzip,br" lvl = .error (.unsupportedEncoding "gzip,br") ∧
    createDecodeStream (.str "gzip,br") = .error (.unsupportedEncoding "gzip,br") ∧
    createEncodeStream (.str "gzip,br") = .error (.unsupportedEncoding "gzip,br") :=
  ⟨rfl, rfl, rfl, rfl, rfl, rfl⟩

/-- Folding a single-token decoder over a reversed token list is the nested
composition `decode(decode(..., t_n)..., t_1)` of the spec's §4.3 formula. -/
theorem foldlM_reverse_eq_decodeChain
    (step : List Nat → String → Except CodecError (List Nat)) :
    ∀ (parts : List String) (body : List Nat),
      (parts.reverse).foldlM (fun content tok => step content tok) body =
        decodeChain step body parts := by
  intro parts
  induction parts with
  | nil => intro body; rfl
  | cons tok rest ih =>
    intro body
    rw [List.reverse_cons, List.foldlM_append, ih]
    show _ = (decodeChain step body rest).bind fun content => step content tok
    cases decodeChain step body rest with
    | error e => rfl
    | ok c =>
      show (step c tok >>= pure) = step c tok
      cases step c tok <;> rfl

/-- C2, counterexample.  For an explicit token list the buffered decoder does
not reverse: with engines where gunzip prepends 0 and brotli prepends 1,
`decodeBuffer(body, ['gzip', 'br'])` applies gzip first (result `[1, 0]`),
while the claimed `decode(decode(body, 'br'), 'gzip')` gives `[0, 1]`. -/
theorem c2_counterexample :
    decodeBuffer cexEngines [] (.list ["gzip", "br"]) = .ok [1, 0] ∧
    decodeChain (decodeBufferStr cexEngines) [] ["gzip", "br"] = .ok [0, 1] ∧
    ([1, 0] : List Nat) ≠ [0, 1] :=
  ⟨rfl, rfl, by decide⟩

/-- C2, amended.  A `", "`-joined string spec is decoded by the reversed
nested composition of the spec formula; an explicit list spec is folded in
the order given (equivalently, it equals the spec formula applied to the
*reversed* list), for both `decodeBuffer` and `decodeBufferSync`. -/
theorem c2_multi_token_fold (E : Engines) (body : List Nat) :
    (∀ s : String, 2 ≤ (jsSplitOnCommaSpace s).length →
      decodeBuffer E body (.str s) =
        decodeChain (decodeBufferSingle E) body (jsSplitOnCommaSpace s) ∧
      decodeBufferSync E body (.str s) =
        decodeChain (decodeBufferSyncSingle E) body (jsSplitOnCommaSpace s)) ∧
    (∀ l : List String,
      decodeBuffer E body (.list l) =
        decodeChain (decodeBufferStr E) body l.reverse ∧
      decodeBufferSync E body (.list l) =
        decodeChain (decodeBufferSyncStr E) body l.reverse) := by
  constructor
  · intro s hs
    constructor
    · show decodeBufferStr E body s = _
      rcases h : jsSplitOnCommaSpace s with _ | ⟨a, _ | ⟨b, l⟩⟩
      · rw [h] at hs; simp at hs
      · rw [h] at hs; simp at hs
      · rw [decodeBufferStr, h]
        exact foldlM_reverse_eq_decodeChain _ (a :: b :: l) body
    · show decodeBufferSyncStr E body s = _
      rcases h : jsSplitOnCommaSpace s with _ | ⟨a, _ | ⟨b, l⟩⟩
      · rw [h] at hs; simp at hs
      · rw [h] at hs; simp at hs
      · rw [decodeBufferSyncStr, h]
        exact foldlM_reverse_eq_decodeChain _ (a :: b :: l) body
  · intro l
    constructor
    · have := foldlM_reverse_eq_decodeChain (decodeBufferStr E) l.reverse body
      rw [List.reverse_reverse] at this
      exact this
    · have := foldlM_reverse_eq_decodeChain (decodeBufferSyncStr E) l.reverse body
      rw [List.reverse_reverse] at this
      exact this

/-- Witness for C2 at the spec string `"gzip, br"`. -/
theorem c2_multi_token_fold_witness :
    2 ≤ (jsSplitOnCommaSpace "gzip, br").length ∧
    decodeBuffer trivialEngines [5] (.str "gzip, br") =
      decodeChain (decodeBufferSingle trivialEngines) [5]
        (jsSplitOnCommaSpace "gzip, br") :=
  ⟨by decide, ((c2_multi_token_fold trivialEngines [5]).1 "gzip, br" (by decide)).1⟩

/-- C8, counterexample.  The parser does not lower-case the tokens it keeps:
`parseEncodings("GZIP")` returns `["GZIP"]`, not `["gzip"]` (dispatch
lower-cases later, so behaviour stays case-insensitive). -/
theorem c8_counterexample :
    parseEncodings (.str "GZIP") = ["GZIP"] ∧ ("GZIP" : String) ≠ "gzip" :=
  ⟨rfl, by decide⟩

/-- C8, amended.  The parser returns the ordered sub-list of the given tokens
(in their original case) with every no-op alias removed, case-insensitively;
empty or all-no-op input yields `[]`, and exactly in that case the stream
builders return `null` instead of building a pipeline. -/
theorem c8_parse_encodings (spec : EncodingSpec) :
    parseEncodings .undef = [] ∧
    parseEncodings (.str "") = [] ∧
    (∀ t ∈ parseEncodings spec, ¬ IDENTITY_ENCODINGS.contains (jsToLower t)) ∧
    (parseEncodings spec).Sublist (rawEncodings spec) ∧
    (parseEncodings spec = [] ↔
      ∀ t ∈ rawEncodings spec, IDENTITY_ENCODINGS.contains (jsToLower t)) ∧
    (createDecodeStream spec = .ok none ↔ parseEncodings spec = []) ∧
    (createEncodeStream spec = .ok none ↔ parseEncodings spec = []) := by
  refine ⟨rfl, rfl, ?_, ?_, ?_, ?_, ?_⟩
  · intro t ht
    have := (List.mem_filter.mp ht).2
    simpa using this
  · exact List.filter_sublist _
  · rw [parseEncodings, List.filter_eq_nil_iff]
    constructor
    · intro h t ht
      have := h t ht
      simpa using this
    · intro h t ht
      simpa using h t ht
  · constructor
    · intro h
      by_contra hne
      have hne' : (parseEncodings spec).isEmpty = false := by
        simpa [List.isEmpty_iff] using hne
      rw [createDecodeStream, hne'] at h
      simp only [Bool.false_eq_true, if_false] at h
      cases hb : buildChain getDecoderStream (parseEncodings spec).reverse with
      | error e => rw [hb] at h; exact Except.noConfusion h
      | ok stages =>
        rw [hb] at h
        have := Except.ok.inj h
        exact Option.noConfusion this
    · intro h
      have : (parseEncodings spec).isEmpty = true := by simp [h]
      rw [createDecodeStream, this]
      simp
  · constructor
    · intro h
      by_contra hne
      have hne' : (parseEncodings spec).isEmpty = false := by
        simpa [List.isEmpty_iff] using hne
      rw [createEncodeStream, hne'] at h
      simp only [Bool.false_eq_true, if_false] at h
      cases hb : buildChain getEncoderStream (parseEncodings spec) with
      | error e => rw [hb] at h; exact Except.noConfusion h
      | ok stages =>
        rw [hb] at h
        have := Except.ok.inj h
        exact Option.noConfusion this
    · intro h
      have : (parseEncodings spec).isEmpty = true := by simp [h]
      rw [createEncodeStream, this]
      simp

/-- Witness for C8 at the spec string `"gzip, identity"`. -/
theorem c8_parse_encodings_witness :
    ¬ IDENTITY_ENCODINGS.contains (jsToLower "gzip") ∧
    (createDecodeStream (.str "gzip, identity") = .ok none ↔
      parseEncodings (.str "gzip, identity") = []) :=
  ⟨(c8_parse_encodings (.str "gzip, identity")).2.2.1 "gzip" (by decide),
   (c8_parse_encodings (.str "gzip, identity")).2.2.2.2.2.1⟩

/-- A token without the `", "` separator goes through the single-token branch
of `decodeBuffer`. -/
theorem decodeBufferStr_single (E : Engines) (body : List Nat) {tok : String}
    (h : (jsSplitOnCommaSpace tok).length < 2) :
    decodeBufferStr E body tok = decodeBufferSingle E body tok := by
  rcases hsp : jsSplitOnCommaSpace tok with _ | ⟨a, _ | ⟨b, l⟩⟩
  · rw [decodeBufferStr, hsp]
  · rw [decodeBufferStr, hsp]
  · rw [hsp] at h; exact absurd h (by simp)

/-- A token without the `", "` separator goes through the single-token branch
of `decodeBufferSync`. -/
theorem decodeBufferSyncStr_single (E : Engines) (body : List Nat) {tok : String}
    (h : (jsSplitOnCommaSpace tok).length < 2) :
    decodeBufferSyncStr E body tok = decodeBufferSyncSingle E body tok := by
  rcases hsp : jsSplitOnCommaSpace tok with _ | ⟨a, _ | ⟨b, l⟩⟩
  · rw [decodeBufferSyncStr, hsp]
  · rw [decodeBufferSyncStr, hsp]
  · rw [hsp] at h; exact absurd h (by simp)

/-- C9, counterexample.  `br` is a recognized token (lower-case, even), yet
`decodeBufferSync` fails on it with `Unsupported encoding`: the sync variant
has no brotli/zstd branch, so "a recognized token in any letter case does not
error" is false for `decodeBufferSync`. -/
theorem c9_counterexample :
    decodeBufferSync trivialEngines [] (.str "br") =
      .error (.unsupportedEncoding "br") ∧
    "br" ∈ RECOGNIZED_TOKENS :=
  ⟨rfl, by decide⟩

/-- C9, amended.  A single token that is neither recognized nor a no-op alias
fails with `UnsupportedEncoding` in all five entry points (the buffered APIs
report the lower-cased token, the stream builders the token as given); and
dispatch is case-insensitive: a token whose lower-casing is recognized never
produces `UnsupportedEncoding` in `decodeBuffer`, `encodeBuffer`,
`createDecodeStream` or `createEncodeStream`, while `decodeBufferSync`
additionally rejects `br` and `zstd` (in any case) as unsupported. -/
theorem c9_unsupported_encoding (E : Engines) (body : List Nat)
    (lvl : Option Nat) (tok : String) (h1 : tok ≠ "")
    (h2 : (jsSplitOnCommaSpace tok).length < 2) :
    (jsToLower tok ∉ RECOGNIZED_TOKENS → jsToLower tok ∉ IDENTITY_ENCODINGS →
      decodeBuffer E body (.str tok) = .error (.unsupportedEncoding (jsToLower tok)) ∧
      decodeBufferSync E body (.str tok) = .error (.unsupportedEncoding (jsToLower tok)) ∧
      encodeBuffer E body tok lvl = .error (.unsupportedEncoding (jsToLower tok)) ∧
      createDecodeStream (.str tok) = .error (.unsupportedEncoding tok) ∧
      createEncodeStream (.str tok) = .error (.unsupportedEncoding tok)) ∧
    (jsToLower tok ∈ RECOGNIZED_TOKENS →
      (∀ e, decodeBuffer E body (.str tok) ≠ .error (.unsupportedEncoding e)) ∧
      (∃ r, encodeBuffer E body tok lvl = .ok r) ∧
      (∃ st, createDecodeStream (.str tok) = .ok (some st)) ∧
      (∃ st, createEncodeStream (.str tok) = .ok (some st)) ∧
      (jsToLower tok ≠ "br" → jsToLower tok ≠ "zstd" →
        ∀ e, decodeBufferSync E body (.str tok) ≠ .error (.unsupportedEncoding e)) ∧
      ((jsToLower tok = "br" ∨ jsToLower tok = "zstd") →
        decodeBufferSync E body (.str tok) =
          .error (.unsupportedEncoding (jsToLower tok)))) := by
  have h2' : ¬ 2 ≤ (jsSplitOnCommaSpace tok).length := by omega
  constructor
  · intro h3 h4
    simp only [RECOGNIZED_TOKENS, List.mem_cons, List.not_mem_nil, or_false,
      not_or] at h3
    obtain ⟨g1, g2, g3, g4, g5, g6, g7⟩ := h3
    have hparse : parseEncodings (.str tok) = [tok] := by
      simp [parseEncodings, rawEncodings, h1, h2', h4]
    have hdec : getDecoderStream tok = .error (.unsupportedEncoding tok) := by
      simp [getDecoderStream, g1, g2, g3, g4, g5, g6, g7]
    have henc : getEncoderStream tok = .error (.unsupportedEncoding tok) := by
      simp [getEncoderStream, g1, g2, g3, g4, g5, g6, g7]
    refine ⟨?_, ?_, ?_, ?_, ?_⟩
    · rw [show decodeBuffer E body (.str tok) = decodeBufferStr E body tok from rfl,
        decodeBufferStr_single E body h2]
      simp [decodeBufferSingle, h1, g1, g2, g3, g4, g5, g6, g7, h4]
    · rw [show decodeBufferSync E body (.str tok) = decodeBufferSyncStr E body tok from rfl,
        decodeBufferSyncStr_single E body h2]
      simp [decodeBufferSyncSingle, h1, g1, g2, g3, g4, g5, g6, g7, h4]
    · simp [encodeBuffer, h1, g1, g2, g3, g4, g5, g6, g7, h4]
    · rw [createDecodeStream, hparse]
      simp [buildChain, hdec]
    · rw [createEncodeStream, hparse]
      simp [buildChain, henc]
  · intro h3
    have h4 : jsToLower tok ∉ IDENTITY_ENCODINGS := by
      simp only [RECOGNIZED_TOKENS, List.mem_cons, List.not_mem_nil, or_false] at h3
      rcases h3 with htl | htl | htl | htl | htl | htl | htl <;> rw [htl] <;> decide
    have hparse : parseEncodings (.str tok) = [tok] := by
      simp [parseEncodings, rawEncodings, h1, h2', h4]
    have hstr : decodeBuffer E body (.str tok) = decodeBufferSingle E body tok := by
      rw [show decodeBuffer E body (.str tok) = decodeBufferStr E body tok from rfl,
        decodeBufferStr_single E body h2]
    have hsyncstr : decodeBufferSync E body (.str tok) = decodeBufferSyncSingle E body tok := by
      rw [show decodeBufferSync E body (.str tok) = decodeBufferSyncStr E body tok from rfl,
        decodeBufferSyncStr_single E body h2]
    have hdecstream : ∀ st, getDecoderStream tok = .ok st →
        ∃ stl, createDecodeStream (.str tok) = .ok (some stl) := by
      intro st hst
      refine ⟨[st], ?_⟩
      rw [createDecodeStream, hparse]
      simp [buildChain, hst]
    have hencstream : ∀ st, getEncoderStream tok = .ok st →
        ∃ stl, createEncodeStream (.str tok) = .ok (some stl) := by
      intro st hst
      refine ⟨[st], ?_⟩
      rw [createEncodeStream, hparse]
      simp [buildChain, hst]
    simp only [RECOGNIZED_TOKENS, List.mem_cons, List.not_mem_nil, or_false] at h3
    rcases h3 with htl | htl | htl | htl | htl | htl | htl
    · -- gzip
      refine ⟨?_, ⟨E.gzip body (lvl.getD 4), ?_⟩, hdecstream .gunzipStream ?_, hencstream .gzipStream ?_, ?_, ?_⟩
      · intro e; rw [hstr]; simp [decodeBufferSingle, h1, htl]
      · simp [encodeBuffer, h1, htl]
      · simp [getDecoderStream, htl]
      · simp [getEncoderStream, htl]
      · intro _ _ e; rw [hsyncstr]; simp [decodeBufferSyncSingle, h1, htl]
      · intro hbz; rw [htl] at hbz
        rcases hbz with h | h <;> exact absurd h (by decide)
    · -- x-gzip
      refine ⟨?_, ⟨E.gzip body (lvl.getD 4), ?_⟩, hdecstream .gunzipStream ?_, hencstream .gzipStream ?_, ?_, ?_⟩
      · intro e; rw [hstr]; simp [decodeBufferSingle, h1, htl]
      · simp [encodeBuffer, h1, htl]
      · simp [getDecoderStream, htl]
      · simp [getEncoderStream, htl]
      · intro _ _ e; rw [hsyncstr]; simp [decodeBufferSyncSingle, h1, htl]
      · intro hbz; rw [htl] at hbz
        rcases hbz with h | h <;> exact absurd h (by decide)
    · -- deflate
      refine ⟨?_, ⟨E.deflate body (lvl.getD 4), ?_⟩, hdecstream .inflateStream ?_, hencstream .deflateStream ?_, ?_, ?_⟩
      · intro e; rw [hstr]; simp [decodeBufferSingle, h1, htl]
        split <;> simp
      · simp [encodeBuffer, h1, htl]
      · simp [getDecoderStream, htl]
      · simp [getEncoderStream, htl]
      · intro _ _ e; rw [hsyncstr]; simp [decodeBufferSyncSingle, h1, htl]
        split <;> simp
      · intro hbz; rw [htl] at hbz
        rcases hbz with h | h <;> exact absurd h (by decide)
    · -- x-deflate
      refine ⟨?_, ⟨E.deflate body (lvl.getD 4), ?_⟩, hdecstream .inflateStream ?_, hencstream .deflateStream ?_, ?_, ?_⟩
      · intro e; rw [hstr]; simp [decodeBufferSingle, h1, htl]
        split <;> simp
      · simp [encodeBuffer, h1, htl]
      · simp [getDecoderStream, htl]
      · simp [getEncoderStream, htl]
      · intro _ _ e; rw [hsyncstr]; simp [decodeBufferSyncSingle, h1, htl]
        split <;> simp
      · intro hbz; rw [htl] at hbz
        rcases hbz with h | h <;> exact absurd h (by decide)
    · -- br
      refine ⟨?_, ⟨E.brotliCompress body (lvl.getD 4), ?_⟩, hdecstream .brotliDecompressStream ?_, hencstream .brotliCompressStream ?_, ?_, ?_⟩
      · intro e; rw [hstr]; simp [decodeBufferSingle, h1, htl]
      · simp [encodeBuffer, h1, htl]
      · simp [getDecoderStream, htl]
      · simp [getEncoderStream, htl]
      · intro hbr _ _; exact absurd htl hbr
      · intro _; rw [hsyncstr]; rw [htl]
        simp [decodeBufferSyncSingle, h1, htl,
          show ("br" : String) ∉ IDENTITY_ENCODINGS from by decide]
    · -- zstd
      refine ⟨?_, ⟨E.zstdCompress body (lvl.getD 4), ?_⟩, hdecstream .zstdDecompressStream ?_, hencstream .zstdCompressStream ?_, ?_, ?_⟩
      · intro e; rw [hstr]; simp [decodeBufferSingle, h1, htl]
      · simp [encodeBuffer, h1, htl]
      · simp [getDecoderStream, htl]
      · simp [getEncoderStream, htl]
      · intro _ hz _; exact absurd htl hz
      · intro _; rw [hsyncstr]; rw [htl]
        simp [decodeBufferSyncSingle, h1, htl,
          show ("zstd" : String) ∉ IDENTITY_ENCODINGS from by decide]
    · -- base64
      refine ⟨?_, ⟨encodeBase64Sync body, ?_⟩, hdecstream .base64DecodeStream ?_, hencstream .base64EncodeStream ?_, ?_, ?_⟩
      · intro e; rw [hstr]; simp [decodeBufferSingle, h1, htl]
        split <;> simp
      · simp [encodeBuffer, h1, htl]
      · simp [getDecoderStream, htl]
      · simp [getEncoderStream, htl]
      · intro _ _ e; rw [hsyncstr]; simp [decodeBufferSyncSingle, h1, htl]
        split <;> simp
      · intro hbz; rw [htl] at hbz
        rcases hbz with h | h <;> exact absurd h (by decide)


/-- Witness for C9: `randomized` is rejected everywhere, while `GZIP`
(upper-case) never raises `UnsupportedEncoding` in `decodeBuffer`. -/
theorem c9_unsupported_encoding_witness :
    decodeBuffer trivialEngines [7] (.str "randomized") =
      .error (.unsupportedEncoding (jsToLower "randomized")) ∧
    (∀ e, decodeBuffer trivialEngines [7] (.str "GZIP") ≠
      .error (.unsupportedEncoding e)) :=
  ⟨((c9_unsupported_encoding trivialEngines [7] none "randomized"
      (by decide) (by decide)).1 (by decide) (by decide)).1,
   ((c9_unsupported_encoding trivialEngines [7] none "GZIP"
      (by decide) (by decide)).2 (by decide)).1⟩

/-- The validation scan fails at the *first* invalid byte, reporting its
position (offset by the starting index `i`) and the byte itself. -/
theorem b64Scan_error_of_invalid :
    ∀ (l : List Nat) (i : Nat),
      (∃ k, k < l.length ∧ BASE64_DECODE_LOOKUP (l.getD k 0) = 255) →
      ∃ j, j < l.length ∧ BASE64_DECODE_LOOKUP (l.getD j 0) = 255 ∧
        (∀ m, m < j → BASE64_DECODE_LOOKUP (l.getD m 0) ≠ 255) ∧
        b64Scan l i = .error (i + j, l.getD j 0) := by
  intro l
  induction l with
  | nil =>
    intro i ⟨k, hk, _⟩
    exact absurd hk (by simp)
  | cons c rest ih =>
    intro i ⟨k, hk, hkv⟩
    by_cases hc : BASE64_DECODE_LOOKUP c = 255
    · refine ⟨0, by simp, by simpa using hc, fun m hm => absurd hm (Nat.not_lt_zero m), ?_⟩
      have hlt : ¬ BASE64_DECODE_LOOKUP c < 64 := by omega
      simp [b64Scan, hlt, hc]
    · have hk0 : k ≠ 0 := by
        intro h0
        rw [h0] at hkv
        exact hc (by simpa using hkv)
      obtain ⟨k', rfl⟩ := Nat.exists_eq_succ_of_ne_zero hk0
      have hex : ∃ k, k < rest.length ∧ BASE64_DECODE_LOOKUP (rest.getD k 0) = 255 := by
        refine ⟨k', ?_, ?_⟩
        · simpa using hk
        · simpa using hkv
      obtain ⟨j', hj'len, hj'v, hj'first, hscan⟩ := ih (i + 1) hex
      refine ⟨j' + 1, by simpa using hj'len, by simpa using hj'v, ?_, ?_⟩
      · intro m hm
        cases m with
        | zero => simpa using hc
        | succ m' =>
          have : m' < j' := by omega
          simpa using hj'first m' this
      · by_cases hv : BASE64_DECODE_LOOKUP c < 64
        · simp only [b64Scan, hv, if_pos, hscan]
          simp [Except.map]
          omega
        · have hstep : b64Scan (c :: rest) i = b64Scan rest (i + 1) := by
            simp [b64Scan, hv, hc]
          rw [hstep, hscan]
          simp only [List.getD_cons_succ, Except.error.injEq, Prod.mk.injEq]
          exact ⟨by omega, by simp⟩

/-- C4.  Any base64 input containing a byte the lookup table classifies as
invalid makes the decode abort - in the buffered lookup decoder, in
`decodeBuffer(..., 'base64')`, and in the streaming decode transform (fed as
the first chunk of a fresh stream, for any batch size) - with an error
carrying the position and value of the first such byte, and with no output
produced by the failing call. -/
theorem c4_invalid_base64_aborts (E : Engines) (B : Nat) (input : List Nat)
    (h : ∃ k, k < input.length ∧ BASE64_DECODE_LOOKUP (input.getD k 0) = 255) :
    ∃ j, j < input.length ∧ BASE64_DECODE_LOOKUP (input.getD j 0) = 255 ∧
      (∀ m, m < j → BASE64_DECODE_LOOKUP (input.getD m 0) ≠ 255) ∧
      decodeBase64Lookup input = .error (j, input.getD j 0) ∧
      decodeBuffer E input (.str "base64") = .error (.invalidInput j (input.getD j 0)) ∧
      b64DecodeTransform B [] input = .error (j, input.getD j 0) ∧
      b64DecodeStreamRun B [input] = .error (j, input.getD j 0) := by
  obtain ⟨j, hlen, hv, hfirst, hscan⟩ := b64Scan_error_of_invalid input 0 h
  rw [Nat.zero_add] at hscan
  have hdec : decodeBase64Lookup input = .error (j, input.getD j 0) := by
    rw [decodeBase64Lookup, hscan]
  have htr : b64DecodeTransform B [] input = .error (j, input.getD j 0) := by
    rw [b64DecodeTransform]
    rw [List.nil_append, hscan]
  refine ⟨j, hlen, hv, hfirst, hdec, ?_, htr, ?_⟩
  · show decodeBufferSingle E input "base64" = _
    simp [decodeBufferSingle, decodeBase64Sync, hdec,
      show jsToLower "base64" = "base64" from rfl]
  · rw [b64DecodeStreamRun, b64DecodeStreamLoop, htr]

/-- Witness for C4 on the two-byte input `"# "` (0x23 0x20). -/
theorem c4_invalid_base64_aborts_witness :
    ∃ j, j < ([35, 32] : List Nat).length ∧
      BASE64_DECODE_LOOKUP (([35, 32] : List Nat).getD j 0) = 255 ∧
      (∀ m, m < j → BASE64_DECODE_LOOKUP (([35, 32] : List Nat).getD m 0) ≠ 255) ∧
      decodeBase64Lookup [35, 32] = .error (j, ([35, 32] : List Nat).getD j 0) ∧
      decodeBuffer trivialEngines [35, 32] (.str "base64") =
        .error (.invalidInput j (([35, 32] : List Nat).getD j 0)) ∧
      b64DecodeTransform 4 [] [35, 32] = .error (j, ([35, 32] : List Nat).getD j 0) ∧
      b64DecodeStreamRun 4 [[35, 32]] = .error (j, ([35, 32] : List Nat).getD j 0) :=
  c4_invalid_base64_aborts trivialEngines 4 [35, 32] ⟨0, by decide, by decide⟩

/-- C6, counterexample.  A single retained valid symbol at flush does not
raise an error: the flush computes `resultLen = 0` and emits nothing, so the
symbol is silently dropped (`'S'` = byte 83). -/
theorem c6_counterexample : b64DecodeFlush [83] = .ok [] :=
  rfl

/-- C6, amended.  At final flush a retained trailing group of 2 or 3 valid
symbols is decoded to 1 or 2 output bytes; a retained trailing group of
exactly 1 valid symbol is silently dropped - the flush succeeds with no
output and no error. -/
theorem c6_flush_partial_groups (c1 c2 c3 : Nat)
    (h1 : BASE64_DECODE_LOOKUP c1 < 64) (h2 : BASE64_DECODE_LOOKUP c2 < 64)
    (h3 : BASE64_DECODE_LOOKUP c3 < 64) :
    b64DecodeFlush [c1] = .ok [] ∧
    (b64DecodeFlush [c1, c2]).map List.length = .ok 1 ∧
    (b64DecodeFlush [c1, c2, c3]).map List.length = .ok 2 := by
  have h1' : ¬ 64 ≤ BASE64_DECODE_LOOKUP c1 := by omega
  have h2' : ¬ 64 ≤ BASE64_DECODE_LOOKUP c2 := by omega
  have h3' : ¬ 64 ≤ BASE64_DECODE_LOOKUP c3 := by omega
  refine ⟨?_, ?_, ?_⟩ <;>
    simp [b64DecodeFlush, decodeBase64Sync, decodeBase64Lookup, b64Scan,
      b64SecondPass, h1, h2, h3, h1', h2', h3', Except.map]

/-- Witness for C6 at the symbols `S`, `G`, `k`. -/
theorem c6_flush_partial_groups_witness :
    b64DecodeFlush [83] = .ok [] ∧
    (b64DecodeFlush [83, 71]).map List.length = .ok 1 ∧
    (b64DecodeFlush [83, 71, 107]).map List.length = .ok 2 :=
  c6_flush_partial_groups 83 71 107 (by decide) (by decide) (by decide)

/-- Splitting a `take` of a sum into two adjacent segments. -/
theorem take_add_split {α : Type} : ∀ (l : List α) (m n : Nat),
    l.take (m + n) = l.take m ++ (l.drop m).take n := by
  intro l
  induction l with
  | nil => intro m n; simp
  | cons a t ih =>
    intro m n
    cases m with
    | zero => simp
    | succ m' => simp [Nat.succ_add, ih]

/-- Base64-encoding distributes over concatenation when the first part is
made of complete 3-byte groups. -/
theorem encodeBase64Lookup_append :
    ∀ (x y : List Nat), x.length % 3 = 0 →
      encodeBase64Lookup (x ++ y) = encodeBase64Lookup x ++ encodeBase64Lookup y
  | [], y, _ => by simp [encodeBase64Lookup]
  | [a], _, h => by simp at h
  | [a, b], _, h => by simp at h
  | a :: b :: c :: rest, y, h => by
    have h' : rest.length % 3 = 0 := by
      simp only [List.length_cons] at h
      omega
    have ih := encodeBase64Lookup_append rest y h'
    simp only [List.cons_append, encodeBase64Lookup, List.append_eq]
    rw [ih]

/-- Invariant of the encode batch loop: provided the fuel covers the
remaining bytes, the loop emits exactly the encoding of the consumed
segment, consumes a multiple of 3 bytes, and never runs past the end. -/
theorem b64EncodeLoopGo_spec (B : Nat) (combined : List Nat) :
    ∀ (fuel offset : Nat), offset ≤ combined.length →
      combined.length - offset ≤ fuel →
      (b64EncodeLoopGo B combined fuel offset).1 =
        encodeBase64Sync ((combined.drop offset).take
          ((b64EncodeLoopGo B combined fuel offset).2 - offset)) ∧
      offset ≤ (b64EncodeLoopGo B combined fuel offset).2 ∧
      ((b64EncodeLoopGo B combined fuel offset).2 - offset) % 3 = 0 ∧
      (b64EncodeLoopGo B combined fuel offset).2 ≤ combined.length := by
  intro fuel
  induction fuel with
  | zero =>
    intro offset h1 _
    refine ⟨by simp [b64EncodeLoopGo, encodeBase64Sync, encodeBase64Lookup],
      Nat.le_refl _, by simp [b64EncodeLoopGo], ?_⟩
    simpa [b64EncodeLoopGo] using h1
  | succ fuel ih =>
    intro offset h1 h2
    by_cases hg : offset + 3 ≤ combined.length
    · by_cases ha : offset <
          offset + (min (offset + B) combined.length - offset) / 3 * 3
      · have hstep : b64EncodeLoopGo B combined (fuel + 1) offset =
            (encodeBase64Sync ((combined.drop offset).take
                (offset + (min (offset + B) combined.length - offset) / 3 * 3 - offset)) ++
                (b64EncodeLoopGo B combined fuel
                  (offset + (min (offset + B) combined.length - offset) / 3 * 3)).1,
              (b64EncodeLoopGo B combined fuel
                (offset + (min (offset + B) combined.length - offset) / 3 * 3)).2) := by
          simp [b64EncodeLoopGo, hg, ha]
        set a := offset + (min (offset + B) combined.length - offset) / 3 * 3 with hae
        have hq : 3 ∣ a - offset := by omega
        have haLen : a ≤ combined.length := by
          have hdm : (min (offset + B) combined.length - offset) / 3 * 3 ≤
              min (offset + B) combined.length - offset := Nat.div_mul_le_self _ _
          have hmin : min (offset + B) combined.length ≤ combined.length :=
            Nat.min_le_right _ _
          omega
        have hfuel : combined.length - a ≤ fuel := by omega
        obtain ⟨ihout, ihle, ihmod, ihlen⟩ := ih a haLen hfuel
        have hstep1 : (b64EncodeLoopGo B combined (fuel + 1) offset).1 =
            encodeBase64Sync ((combined.drop offset).take (a - offset)) ++
              (b64EncodeLoopGo B combined fuel a).1 := by
          rw [hstep]
        have hstep2 : (b64EncodeLoopGo B combined (fuel + 1) offset).2 =
            (b64EncodeLoopGo B combined fuel a).2 := by
          rw [hstep]
        refine ⟨?_, ?_, ?_, ?_⟩
        · rw [hstep1, hstep2, ihout]
          rw [show (b64EncodeLoopGo B combined fuel a).2 - offset =
              (a - offset) + ((b64EncodeLoopGo B combined fuel a).2 - a) from by omega]
          rw [take_add_split, List.drop_drop,
            show offset + (a - offset) = a from by omega]
          rw [show encodeBase64Sync = encodeBase64Lookup from rfl]
          rw [encodeBase64Lookup_append _ _
            (by simp [List.length_take, List.length_drop]; omega :
              ((combined.drop offset).take (a - offset)).length % 3 = 0)]
        · rw [hstep2]; omega
        · rw [hstep2]; omega
        · rw [hstep2]; exact ihlen
      · have hstep : b64EncodeLoopGo B combined (fuel + 1) offset = ([], offset) := by
          simp [b64EncodeLoopGo, hg, ha]
        rw [hstep]
        exact ⟨by simp [encodeBase64Sync, encodeBase64Lookup], Nat.le_refl _, by simp, h1⟩
    · have hstep : b64EncodeLoopGo B combined (fuel + 1) offset = ([], offset) := by
        simp [b64EncodeLoopGo, hg]
      rw [hstep]
      exact ⟨by simp [encodeBase64Sync, encodeBase64Lookup], Nat.le_refl _, by simp, h1⟩

/-- Feeding any chunks to the streaming base64 encoder (with any internal
batch size) and flushing emits exactly the buffered encoding of the
concatenation of the leftover and the chunks. -/
theorem b64EncodeStreamLoop_spec (B : Nat) :
    ∀ (chunks : List (List Nat)) (leftover : List Nat),
      b64EncodeStreamLoop B chunks leftover =
        encodeBase64Sync (leftover ++ chunks.flatten) := by
  intro chunks
  induction chunks with
  | nil =>
    intro leftover
    by_cases h : 0 < leftover.length
    · simp [b64EncodeStreamLoop, b64EncodeFlush, h]
    · have hnil : leftover = [] := by
        cases leftover with
        | nil => rfl
        | cons a t => simp at h
      subst hnil
      simp [b64EncodeStreamLoop, b64EncodeFlush, encodeBase64Sync, encodeBase64Lookup]
  | cons chunk rest ih =>
    intro leftover
    obtain ⟨hout, hle, hmod, hlen⟩ :=
      b64EncodeLoopGo_spec B (leftover ++ chunk) (leftover ++ chunk).length 0
        (Nat.zero_le _) (Nat.le_refl _)
    set fin := (b64EncodeLoopGo B (leftover ++ chunk) (leftover ++ chunk).length 0).2 with hfin
    have hstep : b64EncodeStreamLoop B (chunk :: rest) leftover =
        (b64EncodeLoop B (leftover ++ chunk)).1 ++
          b64EncodeStreamLoop B rest ((leftover ++ chunk).drop fin) := by
      rfl
    have hlen' : fin ≤ leftover.length + chunk.length := by simpa using hlen
    have hmod' : fin % 3 = 0 := by simpa using hmod
    rw [hstep, ih, b64EncodeLoop, hout]
    simp only [List.drop_zero, Nat.sub_zero]
    rw [show encodeBase64Sync = encodeBase64Lookup from rfl]
    rw [← encodeBase64Lookup_append _ _
      (by simp only [List.length_take, List.length_append]; omega :
        ((leftover ++ chunk).take fin).length % 3 = 0)]
    rw [← List.append_assoc, List.take_append_drop]
    simp [List.flatten_cons]

/-- `(b << 6) | v` is plain positional arithmetic when `v` fits in 6 bits. -/
theorem shiftLeft6_lor (b v : Nat) (hv : v < 64) : (b <<< 6) ||| v = b * 64 + v := by
  rw [Nat.shiftLeft_eq]
  have h := Nat.mul_add_lt_is_or (show v < 2 ^ 6 from by omega) b
  calc b * 2 ^ 6 ||| v = 2 ^ 6 * b ||| v := by rw [Nat.mul_comm]
    _ = 2 ^ 6 * b + v := h.symm
    _ = b * 64 + v := by rw [Nat.mul_comm]

/-- Masking with `0xff` is reduction mod 256. -/
theorem and255_eq_mod (x : Nat) : x &&& 255 = x % 256 := by
  have h := Nat.and_pow_two_sub_one_eq_mod x 8
  norm_num at h
  exact h

/-- The bit-buffer pass only reads the pending low `bufferLen` bits of the
accumulator: two runs whose buffers agree modulo `2 ^ bufferLen` emit the
same bytes. -/
theorem b64SecondPass_congr :
    ∀ (l : List Nat) (L r b b' : Nat), L < 8 → b % 2 ^ L = b' % 2 ^ L →
      b64SecondPass l b L r = b64SecondPass l b' L r := by
  intro l
  induction l with
  | nil => intro L r b b' _ _; cases r <;> rfl
  | cons c rest ih =>
    intro L r b b' hL hb
    cases r with
    | zero => rfl
    | succ r' =>
      by_cases hv : 64 ≤ BASE64_DECODE_LOOKUP c
      · simp only [b64SecondPass, if_pos hv]
        exact ih L (r' + 1) b b' hL hb
      · have hv' : BASE64_DECODE_LOOKUP c < 64 := by omega
        have hmix : ∀ x : Nat, (x * 64 + BASE64_DECODE_LOOKUP c) % 2 ^ (L + 6) =
            (x % 2 ^ L) * 64 + BASE64_DECODE_LOOKUP c := by
          intro x
          have hpow : (2:Nat) ^ (L + 6) = 2 ^ L * 64 := by
            rw [pow_add]; norm_num
          have hx := Nat.div_add_mod x (2 ^ L)
          have hrepr : x * 64 + BASE64_DECODE_LOOKUP c =
              (2 ^ L * 64) * (x / 2 ^ L) +
                ((x % 2 ^ L) * 64 + BASE64_DECODE_LOOKUP c) := by
            conv_lhs => rw [← hx]
            ring
          have hmlt : x % 2 ^ L < 2 ^ L := Nat.mod_lt _ (Nat.pos_pow_of_pos L (by omega))
          have hbound : (x % 2 ^ L) * 64 + BASE64_DECODE_LOOKUP c < 2 ^ L * 64 := by
            omega
          rw [hpow, hrepr, Nat.mul_add_mod, Nat.mod_eq_of_lt hbound]
        have hkey : ((b <<< 6 ||| BASE64_DECODE_LOOKUP c) % 2 ^ 32) % 2 ^ (L + 6) =
            ((b' <<< 6 ||| BASE64_DECODE_LOOKUP c) % 2 ^ 32) % 2 ^ (L + 6) := by
          rw [shiftLeft6_lor b _ hv', shiftLeft6_lor b' _ hv',
            Nat.mod_mod_of_dvd _ (Nat.pow_dvd_pow 2 (by omega)),
            Nat.mod_mod_of_dvd _ (Nat.pow_dvd_pow 2 (by omega)),
            hmix b, hmix b', hb]
        by_cases hL2 : 8 ≤ L + 6
        · simp only [b64SecondPass, if_neg hv, if_pos hL2]
          have hpow2 : (2:Nat) ^ (L + 6 - 8) * 256 = 2 ^ (L + 6) := by
            rw [show (256:Nat) = 2 ^ 8 from rfl, ← pow_add]
            congr 1
            omega
          have hhead :
              ((b <<< 6 ||| BASE64_DECODE_LOOKUP c) % 2 ^ 32) >>> (L + 6 - 8) &&& 255 =
              ((b' <<< 6 ||| BASE64_DECODE_LOOKUP c) % 2 ^ 32) >>> (L + 6 - 8) &&& 255 := by
            rw [and255_eq_mod, and255_eq_mod,
              Nat.shiftRight_eq_div_pow, Nat.shiftRight_eq_div_pow,
              show (256:Nat) = 2 ^ 8 from rfl,
              ← Nat.mod_mul_right_div_self, ← Nat.mod_mul_right_div_self,
              show (2:Nat) ^ (L + 6 - 8) * 2 ^ 8 = 2 ^ (L + 6) from by
                rw [← pow_add]; congr 1; omega,
              hkey]
          rw [hhead]
          congr 1
          refine ih (L + 6 - 8) r' _ _ (by omega) ?_
          have h2 : ((b <<< 6 ||| BASE64_DECODE_LOOKUP c) % 2 ^ 32) % 2 ^ (L + 6) % 2 ^ (L + 6 - 8) =
              ((b' <<< 6 ||| BASE64_DECODE_LOOKUP c) % 2 ^ 32) % 2 ^ (L + 6) % 2 ^ (L + 6 - 8) :=
            congrArg (· % 2 ^ (L + 6 - 8)) hkey
          rw [Nat.mod_mod_of_dvd _ (Nat.pow_dvd_pow 2 (show L + 6 - 8 ≤ L + 6 from by omega)),
            Nat.mod_mod_of_dvd _ (Nat.pow_dvd_pow 2 (show L + 6 - 8 ≤ L + 6 from by omega))] at h2
          exact h2
        · simp only [b64SecondPass, if_neg hv, if_neg hL2]
          exact ih (L + 6) (r' + 1) _ _ (by omega) hkey

/-- One valid character with enough pending bits emits one byte. -/
theorem b64SecondPass_cons_emit (c : Nat) (l : List Nat) (b L r : Nat)
    (hv : BASE64_DECODE_LOOKUP c < 64) (hL : 8 ≤ L + 6) (hr : r ≠ 0) :
    b64SecondPass (c :: l) b L r =
      (((((b <<< 6) ||| BASE64_DECODE_LOOKUP c) % 2 ^ 32) >>> (L + 6 - 8)) &&& 255) ::
        b64SecondPass l (((b <<< 6) ||| BASE64_DECODE_LOOKUP c) % 2 ^ 32)
          (L + 6 - 8) (r - 1) := by
  obtain ⟨r', rfl⟩ := Nat.exists_eq_succ_of_ne_zero hr
  have hv' : ¬ 64 ≤ BASE64_DECODE_LOOKUP c := by omega
  simp only [b64SecondPass, if_neg hv', if_pos hL, Nat.succ_sub_one]

/-- One valid character without enough pending bits only accumulates. -/
theorem b64SecondPass_cons_acc (c : Nat) (l : List Nat) (b L r : Nat)
    (hv : BASE64_DECODE_LOOKUP c < 64) (hL : ¬ 8 ≤ L + 6) (hr : r ≠ 0) :
    b64SecondPass (c :: l) b L r =
      b64SecondPass l (((b <<< 6) ||| BASE64_DECODE_LOOKUP c) % 2 ^ 32) (L + 6) r := by
  obtain ⟨r', rfl⟩ := Nat.exists_eq_succ_of_ne_zero hr
  have hv' : ¬ 64 ≤ BASE64_DECODE_LOOKUP c := by omega
  simp only [b64SecondPass, if_neg hv', if_neg hL]

/-- The bit-buffer pass splits over a prefix of complete 4-character groups
of 6-bit symbols: the prefix emits its own bytes and the continuation starts
from a fresh buffer. -/
theorem b64SecondPass_append :
    ∀ (x : List Nat), (∀ c ∈ x, BASE64_DECODE_LOOKUP c < 64) → x.length % 4 = 0 →
      ∀ (y : List Nat) (b r : Nat),
        b64SecondPass (x ++ y) b 0 (x.length / 4 * 3 + r) =
          b64SecondPass x b 0 (x.length / 4 * 3) ++ b64SecondPass y 0 0 r
  | [], _, _, y, b, r => by
    simp only [List.nil_append, List.length_nil]
    rw [show (0:Nat) / 4 * 3 + r = r from by omega,
      show (0:Nat) / 4 * 3 = 0 from by omega]
    rw [show b64SecondPass [] b 0 0 = [] from rfl, List.nil_append]
    exact b64SecondPass_congr y 0 r b 0 (by omega) (by omega)
  | [c1], hall, hlen, y, b, r => by simp at hlen
  | [c1, c2], hall, hlen, y, b, r => by simp at hlen
  | [c1, c2, c3], hall, hlen, y, b, r => by simp at hlen
  | c1 :: c2 :: c3 :: c4 :: rest, hall, hlen, y, b, r => by
    have h1 : BASE64_DECODE_LOOKUP c1 < 64 := hall c1 (by simp)
    have h2 : BASE64_DECODE_LOOKUP c2 < 64 := hall c2 (by simp)
    have h3 : BASE64_DECODE_LOOKUP c3 < 64 := hall c3 (by simp)
    have h4 : BASE64_DECODE_LOOKUP c4 < 64 := hall c4 (by simp)
    have hrest : ∀ c ∈ rest, BASE64_DECODE_LOOKUP c < 64 :=
      fun c hc => hall c (by simp [hc])
    have hlen' : rest.length % 4 = 0 := by
      simp only [List.length_cons] at hlen
      omega
    have ih := b64SecondPass_append rest hrest hlen'
    have hlen4 : (c1 :: c2 :: c3 :: c4 :: rest).length / 4 * 3 =
        rest.length / 4 * 3 + 3 := by
      simp only [List.length_cons]
      omega
    rw [hlen4]
    simp only [List.cons_append]
    rw [b64SecondPass_cons_acc c1 (c2 :: c3 :: c4 :: (rest ++ y)) b 0
      (rest.length / 4 * 3 + 3 + r) h1 (by norm_num) (by omega)]
    rw [b64SecondPass_cons_emit c2 (c3 :: c4 :: (rest ++ y)) _ (0 + 6)
      (rest.length / 4 * 3 + 3 + r) h2 (by norm_num) (by omega)]
    rw [b64SecondPass_cons_emit c3 (c4 :: (rest ++ y)) _ (0 + 6 + 6 - 8)
      (rest.length / 4 * 3 + 3 + r - 1) h3 (by norm_num) (by omega)]
    rw [b64SecondPass_cons_emit c4 (rest ++ y) _ (0 + 6 + 6 - 8 + 6 - 8)
      (rest.length / 4 * 3 + 3 + r - 1 - 1) h4 (by norm_num) (by omega)]
    rw [b64SecondPass_cons_acc c1 (c2 :: c3 :: c4 :: rest) b 0
      (rest.length / 4 * 3 + 3) h1 (by norm_num) (by omega)]
    rw [b64SecondPass_cons_emit c2 (c3 :: c4 :: rest) _ (0 + 6)
      (rest.length / 4 * 3 + 3) h2 (by norm_num) (by omega)]
    rw [b64SecondPass_cons_emit c3 (c4 :: rest) _ (0 + 6 + 6 - 8)
      (rest.length / 4 * 3 + 3 - 1) h3 (by norm_num) (by omega)]
    rw [b64SecondPass_cons_emit c4 rest _ (0 + 6 + 6 - 8 + 6 - 8)
      (rest.length / 4 * 3 + 3 - 1 - 1) h4 (by norm_num) (by omega)]
    rw [show (0:Nat) + 6 + 6 - 8 + 6 - 8 + 6 - 8 = 0 from by norm_num]
    rw [show rest.length / 4 * 3 + 3 + r - 1 - 1 - 1 = rest.length / 4 * 3 + r
      from by omega]
    rw [show rest.length / 4 * 3 + 3 - 1 - 1 - 1 = rest.length / 4 * 3
      from by omega]
    simp only [List.cons_append]
    congr 3
    exact ih y _ r

/-- The validation scan of an input made only of 6-bit symbols counts every
character and reports no error. -/
theorem b64Scan_all_valid :
    ∀ (l : List Nat) (i : Nat), (∀ c ∈ l, BASE64_DECODE_LOOKUP c < 64) →
      b64Scan l i = .ok l.length := by
  intro l
  induction l with
  | nil => intro i _; rfl
  | cons c rest ih =>
    intro i hall
    have hc : BASE64_DECODE_LOOKUP c < 64 := hall c (by simp)
    have hrest : ∀ d ∈ rest, BASE64_DECODE_LOOKUP d < 64 :=
      fun d hd => hall d (by simp [hd])
    simp [b64Scan, hc, ih (i + 1) hrest, Except.map]

/-- On scan-clean input the buffered decoder succeeds and produces the
grouped decoding. -/
theorem decodeBase64Lookup_all_valid (u : List Nat)
    (hall : ∀ c ∈ u, BASE64_DECODE_LOOKUP c < 64) :
    decodeBase64Lookup u = .ok (b64DecodeAllValid u) := by
  rw [decodeBase64Lookup, b64Scan_all_valid u 0 hall]
  rfl

/-- The grouped decoding splits over a prefix of complete groups. -/
theorem b64DecodeAllValid_append (x y : List Nat)
    (hx : ∀ c ∈ x, BASE64_DECODE_LOOKUP c < 64) (h4 : x.length % 4 = 0) :
    b64DecodeAllValid (x ++ y) = b64DecodeAllValid x ++ b64DecodeAllValid y := by
  rw [b64DecodeAllValid, b64DecodeAllValid, b64DecodeAllValid]
  rw [List.length_append]
  rw [show (x.length + y.length) % 4 = y.length % 4 from by omega]
  rw [show (x.length + y.length) / 4 * 3 = x.length / 4 * 3 + y.length / 4 * 3
    from by omega]
  rw [show x.length % 4 = 0 from h4]
  rw [show (if (0:Nat) = 3 then 2 else if (0:Nat) = 2 then 1 else 0) = 0 from by norm_num,
    Nat.add_zero]
  rw [Nat.add_assoc]
  exact b64SecondPass_append x hx h4 y 0 _

/-- The `processEnd` search over scan-clean input lands exactly on the
target index. -/
theorem b64FindGroupEnd_all_valid :
    ∀ (l : List Nat) (t : Nat), (∀ c ∈ l, BASE64_DECODE_LOOKUP c < 64) →
      t ≤ l.length → b64FindGroupEnd l t = t := by
  intro l
  induction l with
  | nil =>
    intro t _ ht
    have ht0 : t = 0 := by simpa using ht
    subst ht0
    rfl
  | cons c rest ih =>
    intro t hall ht
    cases t with
    | zero => rfl
    | succ t' =>
      have hc : BASE64_DECODE_LOOKUP c < 64 := hall c (by simp)
      have hrest : ∀ d ∈ rest, BASE64_DECODE_LOOKUP d < 64 :=
        fun d hd => hall d (by simp [hd])
      rw [b64FindGroupEnd, if_pos (Or.inl hc), ih t' hrest (by simpa using ht)]
      omega

/-- The decode batch loop over scan-clean input, with a positive batch size
that is a multiple of 4, decodes exactly the `[offset, processEnd)` region. -/
theorem b64DecodeBatchesGo_spec (B processEnd : Nat) (combined : List Nat)
    (hall : ∀ c ∈ combined, BASE64_DECODE_LOOKUP c < 64) (hB : 0 < B)
    (hB4 : 4 ∣ B) (hpe4 : 4 ∣ processEnd) (hpeLen : processEnd ≤ combined.length) :
    ∀ (fuel offset : Nat), 4 ∣ offset → offset ≤ processEnd →
      processEnd - offset ≤ fuel →
      b64DecodeBatchesGo B processEnd combined fuel offset =
        .ok (b64DecodeAllValid ((combined.drop offset).take (processEnd - offset))) := by
  intro fuel
  induction fuel with
  | zero =>
    intro offset _ hoff hfuel
    rw [show processEnd - offset = 0 from by omega, List.take_zero]
    rfl
  | succ fuel ih =>
    intro offset hoff4 hoff hfuel
    by_cases hlt : offset < processEnd
    · have hguard : offset < processEnd ∧ 0 < B := ⟨hlt, hB⟩
      have hbe4 : 4 ∣ min (offset + B) processEnd := by omega
      have hbatchValid : ∀ c ∈ (combined.drop offset).take
          (min (offset + B) processEnd - offset), BASE64_DECODE_LOOKUP c < 64 :=
        fun c hc => hall c (List.mem_of_mem_drop (List.mem_of_mem_take hc))
      have hbatchLen : ((combined.drop offset).take
          (min (offset + B) processEnd - offset)).length =
          min (offset + B) processEnd - offset := by
        simp only [List.length_take, List.length_drop]
        omega
      have hdec : decodeBase64Sync ((combined.drop offset).take
          (min (offset + B) processEnd - offset)) =
          .ok (b64DecodeAllValid ((combined.drop offset).take
            (min (offset + B) processEnd - offset))) :=
        decodeBase64Lookup_all_valid _ hbatchValid
      have hrec := ih (min (offset + B) processEnd)
        (by omega) (by omega) (by omega)
      have hbatchMod : ((combined.drop offset).take
          (min (offset + B) processEnd - offset)).length % 4 = 0 := by
        rw [hbatchLen]; omega
      simp only [b64DecodeBatchesGo, if_pos hguard, hdec, hrec]
      rw [← b64DecodeAllValid_append _ _ hbatchValid hbatchMod]
      have hsplit : (combined.drop offset).take (processEnd - offset) =
          (combined.drop offset).take (min (offset + B) processEnd - offset) ++
            (combined.drop (min (offset + B) processEnd)).take
              (processEnd - min (offset + B) processEnd) := by
        rw [show processEnd - offset =
            (min (offset + B) processEnd - offset) +
              (processEnd - min (offset + B) processEnd) from by omega]
        rw [take_add_split, List.drop_drop,
          show offset + (min (offset + B) processEnd - offset) =
            min (offset + B) processEnd from by omega]
      rw [hsplit]
    · have hguard : ¬ (offset < processEnd ∧ 0 < B) := by omega
      rw [b64DecodeBatchesGo, if_neg hguard,
        show processEnd - offset = 0 from by omega, List.take_zero]
      rfl

/-- One streaming decode `transform` call over scan-clean input decodes the
complete groups and retains the remainder, for a positive batch size that is
a multiple of 4. -/
theorem b64DecodeTransform_spec (B : Nat) (leftover input : List Nat)
    (hall : ∀ c ∈ leftover ++ input, BASE64_DECODE_LOOKUP c < 64)
    (hB : 0 < B) (hB4 : 4 ∣ B) :
    b64DecodeTransform B leftover input =
      .ok (b64DecodeAllValid ((leftover ++ input).take
            ((leftover ++ input).length / 4 * 4)),
          (leftover ++ input).drop ((leftover ++ input).length / 4 * 4)) := by
  have hle : (leftover ++ input).length / 4 * 4 ≤ (leftover ++ input).length := by
    have := Nat.div_mul_le_self (leftover ++ input).length 4
    omega
  have hfind := b64FindGroupEnd_all_valid _ ((leftover ++ input).length / 4 * 4) hall hle
  have hbatches : b64DecodeBatches B (leftover ++ input)
      ((leftover ++ input).length / 4 * 4) =
      .ok (b64DecodeAllValid ((leftover ++ input).take
        ((leftover ++ input).length / 4 * 4))) := by
    rw [b64DecodeBatches, b64DecodeBatchesGo_spec _ _ _ hall hB hB4
      (⟨(leftover ++ input).length / 4, by ring⟩) hle
      ((leftover ++ input).length / 4 * 4) 0 (by omega) (by omega) (by omega)]
    rw [show (leftover ++ input).length / 4 * 4 - 0 =
      (leftover ++ input).length / 4 * 4 from by omega, List.drop_zero]
  by_cases h0 : 0 < (leftover ++ input).length / 4
  · simp only [b64DecodeTransform, b64Scan_all_valid _ 0 hall, h0, if_true,
      hfind, hbatches]
  · simp only [b64DecodeTransform, b64Scan_all_valid _ 0 hall, h0, if_false]
    rw [show (leftover ++ input).length / 4 * 4 = 0 from by omega]
    rw [List.take_zero, List.drop_zero]
    rfl

/-- The streaming decode flush over scan-clean leftover decodes it fully. -/
theorem b64DecodeFlush_all_valid (leftover : List Nat)
    (hall : ∀ c ∈ leftover, BASE64_DECODE_LOOKUP c < 64) :
    b64DecodeFlush leftover = .ok (b64DecodeAllValid leftover) := by
  cases leftover with
  | nil => rfl
  | cons a t =>
    have hfilter : (a :: t).filter (fun c => BASE64_DECODE_LOOKUP c < 64) = a :: t := by
      rw [List.filter_eq_self]
      intro c hc
      simpa using hall c hc
    rw [b64DecodeFlush, if_pos (by simp)]
    rw [hfilter]
    rw [if_pos (by simp)]
    exact decodeBase64Lookup_all_valid _ hall

/-- Feeding scan-clean chunks to the streaming decoder and flushing yields
the grouped decoding of the whole input. -/
theorem b64DecodeStreamLoop_spec (B : Nat) (hB : 0 < B) (hB4 : 4 ∣ B) :
    ∀ (chunks : List (List Nat)) (leftover : List Nat),
      (∀ c ∈ leftover ++ chunks.flatten, BASE64_DECODE_LOOKUP c < 64) →
      b64DecodeStreamLoop B chunks leftover =
        .ok (b64DecodeAllValid (leftover ++ chunks.flatten)) := by
  intro chunks
  induction chunks with
  | nil =>
    intro leftover hall
    rw [b64DecodeStreamLoop, b64DecodeFlush_all_valid leftover
      (fun c hc => hall c (by simpa using hc))]
    simp
  | cons chunk rest ih =>
    intro leftover hall
    have hallc : ∀ c ∈ leftover ++ chunk, BASE64_DECODE_LOOKUP c < 64 := by
      intro c hc
      refine hall c ?_
      simp only [List.flatten_cons, List.mem_append] at hc ⊢
      tauto
    have halltake : ∀ c ∈ (leftover ++ chunk).take
        ((leftover ++ chunk).length / 4 * 4), BASE64_DECODE_LOOKUP c < 64 :=
      fun c hc => hallc c (List.mem_of_mem_take hc)
    have halldrop : ∀ c ∈ ((leftover ++ chunk).drop
        ((leftover ++ chunk).length / 4 * 4)) ++ rest.flatten,
        BASE64_DECODE_LOOKUP c < 64 := by
      intro c hc
      rcases List.mem_append.mp hc with hc | hc
      · exact hallc c (List.mem_of_mem_drop hc)
      · refine hall c ?_
        simp only [List.flatten_cons, List.mem_append]
        tauto
    have htakeLen : ((leftover ++ chunk).take
        ((leftover ++ chunk).length / 4 * 4)).length % 4 = 0 := by
      simp only [List.length_take]
      have := Nat.div_mul_le_self (leftover ++ chunk).length 4
      omega
    simp only [b64DecodeStreamLoop,
      b64DecodeTransform_spec B leftover chunk hallc hB hB4,
      ih ((leftover ++ chunk).drop ((leftover ++ chunk).length / 4 * 4)) halldrop]
    rw [← b64DecodeAllValid_append _ _ halltake htakeLen]
    rw [← List.append_assoc, List.take_append_drop]
    simp [List.flatten_cons]

/-- Counterexample to C3: with internal batch size 4, streaming the single
chunk "AB  CD" (two spaces inside a base64 group) through
`createBase64DecodeStream` emits [0, 8], while the buffered decoder applied
to the same bytes returns [0, 16, 131]: the batch loop slices the input at
byte offsets, so whitespace inside a group misaligns the 4-character groups
across batch boundaries. -/
theorem c3_counterexample :
    b64DecodeStreamRun 4 [[65, 66, 32, 32, 67, 68]] = .ok [0, 8] ∧
    decodeBase64Sync [65, 66, 32, 32, 67, 68] = .ok [0, 16, 131] ∧
    ([0, 8] : List Nat) ≠ [0, 16, 131] :=
  ⟨rfl, rfl, by decide⟩

/-- C3 (amended): for every internal batch size that is positive and a
multiple of 4, the streaming base64 codecs agree with the buffered ones on
any partition of the input into chunks: the encoder unconditionally, the
decoder whenever every input byte has a 6-bit lookup value (no whitespace
and no invalid bytes between the groups).  The encoder part in fact holds
for every batch size; the decoder's batch slicing is by byte offset, so
bytes that the scan skips (whitespace) can misalign the 4-character groups
across batch boundaries, as `c3_counterexample` shows. -/
theorem c3_streaming_matches_buffered (B : Nat) (hB : 0 < B) (hB4 : 4 ∣ B) :
    (∀ chunks : List (List Nat),
      b64EncodeStreamRun B chunks = encodeBase64Sync chunks.flatten) ∧
    (∀ chunks : List (List Nat),
      (∀ c ∈ chunks.flatten, BASE64_DECODE_LOOKUP c < 64) →
      b64DecodeStreamRun B chunks = decodeBase64Sync chunks.flatten) := by
  constructor
  · intro chunks
    rw [b64EncodeStreamRun, b64EncodeStreamLoop_spec, List.nil_append]
  · intro chunks hall
    rw [b64DecodeStreamRun,
      b64DecodeStreamLoop_spec B hB hB4 chunks [] (by simpa using hall)]
    rw [show decodeBase64Sync chunks.flatten = decodeBase64Lookup chunks.flatten
      from rfl]
    rw [decodeBase64Lookup_all_valid chunks.flatten hall]
    simp

/-- Witness for the amended C3 at batch size 4: encoding the chunked bytes
of "Hi!" and decoding the chunked characters of "SGlp". -/
theorem c3_streaming_matches_buffered_witness :
    b64EncodeStreamRun 4 [[72, 105], [33]] =
      encodeBase64Sync ([[72, 105], [33]] : List (List Nat)).flatten ∧
    b64DecodeStreamRun 4 [[83, 71], [108, 112]] =
      decodeBase64Sync ([[83, 71], [108, 112]] : List (List Nat)).flatten :=
  ⟨(c3_streaming_matches_buffered 4 (by decide) (by decide)).1 [[72, 105], [33]],
   (c3_streaming_matches_buffered 4 (by decide) (by decide)).2
     [[83, 71], [108, 112]] (by decide)⟩

end HttpEncoding
